import Mathlib

set_option maxRecDepth 8000

/-!
Verification of the uAgents-NPM messaging core against its specification.

The TypeScript sources under src/ are shallowly embedded: classes become
structures, methods become functions, JavaScript numbers become Nat, Int or
Rat (with explicit modular reduction where 64-bit wrap matters), fallible
code returns Option or Except, and external effects (fetch, the elliptic
curve library, the random sampler, the bech32 checksum encoder) are passed
in as explicit function arguments.  All definitions are executable by the
kernel (structural recursion or explicit fuel), so concrete witnesses can
be evaluated with decide or rfl.
-/

namespace UAgents

/-- UTF-8 encoding of a single character, as the list of its byte values.
Models the byte sequence Node's Buffer.from(string) produces for one
code point. -/
def utf8EncodeChar (c : Char) : List Nat :=
  let n := c.toNat
  if n < 0x80 then [n]
  else if n < 0x800 then [0xC0 + n / 64, 0x80 + n % 64]
  else if n < 0x10000 then [0xE0 + n / 4096, 0x80 + n / 64 % 64, 0x80 + n % 64]
  else [0xF0 + n / 262144, 0x80 + n / 4096 % 64, 0x80 + n / 64 % 64, 0x80 + n % 64]

/-- UTF-8 bytes of a whole string, modelling Buffer.from(s) /
hasher.update(s) in the sources. -/
def strBytes (s : String) : List Nat :=
  (s.data.map utf8EncodeChar).flatten

/-- Decoding of the one-continuation-byte form of a UTF-8 sequence whose
lead byte is b0: the decoded code point and the remaining bytes, or none
on a malformed or overlong sequence. -/
def utf8Decode2 (b0 : Nat) : List Nat → Option (Nat × List Nat)
  | b1 :: rest =>
    if 0x80 ≤ b1 ∧ b1 < 0xC0 then
      if (b0 - 0xC0) * 64 + (b1 - 0x80) < 0x80 then none
      else some ((b0 - 0xC0) * 64 + (b1 - 0x80), rest)
    else none
  | [] => none

/-- Decoding of the two-continuation-byte form of a UTF-8 sequence
(rejecting overlong encodings and surrogate code points). -/
def utf8Decode3 (b0 : Nat) : List Nat → Option (Nat × List Nat)
  | b1 :: b2 :: rest =>
    if (0x80 ≤ b1 ∧ b1 < 0xC0) ∧ (0x80 ≤ b2 ∧ b2 < 0xC0) then
      if (b0 - 0xE0) * 4096 + (b1 - 0x80) * 64 + (b2 - 0x80) < 0x800 ∨
          (0xD800 ≤ (b0 - 0xE0) * 4096 + (b1 - 0x80) * 64 + (b2 - 0x80) ∧
            (b0 - 0xE0) * 4096 + (b1 - 0x80) * 64 + (b2 - 0x80) < 0xE000) then none
      else some ((b0 - 0xE0) * 4096 + (b1 - 0x80) * 64 + (b2 - 0x80), rest)
    else none
  | _ => none

/-- Decoding of the three-continuation-byte form of a UTF-8 sequence
(rejecting overlong encodings and out-of-range code points). -/
def utf8Decode4 (b0 : Nat) : List Nat → Option (Nat × List Nat)
  | b1 :: b2 :: b3 :: rest =>
    if (0x80 ≤ b1 ∧ b1 < 0xC0) ∧ (0x80 ≤ b2 ∧ b2 < 0xC0) ∧ (0x80 ≤ b3 ∧ b3 < 0xC0) then
      if (b0 - 0xF0) * 262144 + (b1 - 0x80) * 4096 + (b2 - 0x80) * 64 + (b3 - 0x80) < 0x10000 ∨
          0x110000 ≤ (b0 - 0xF0) * 262144 + (b1 - 0x80) * 4096 + (b2 - 0x80) * 64 + (b3 - 0x80)
        then none
      else some ((b0 - 0xF0) * 262144 + (b1 - 0x80) * 4096 + (b2 - 0x80) * 64 + (b3 - 0x80), rest)
    else none
  | _ => none

/-- Decoding of the first UTF-8 sequence in a byte stream, dispatching on
the lead byte. -/
def utf8DecodeOne : List Nat → Option (Nat × List Nat)
  | [] => none
  | b0 :: rest =>
    if b0 < 0x80 then some (b0, rest)
    else if b0 < 0xC0 then none
    else if b0 < 0xE0 then utf8Decode2 b0 rest
    else if b0 < 0xF0 then utf8Decode3 b0 rest
    else if b0 < 0xF8 then utf8Decode4 b0 rest
    else none

/-- Fuel-driven loop decoding a whole byte stream; fuel at least the
stream length always suffices, since every sequence consumes at least one
byte. -/
def utf8DecodeLoop : Nat → List Nat → Option (List Char)
  | _, [] => some []
  | 0, _ :: _ => none
  | fuel + 1, b0 :: rest =>
    match utf8DecodeOne (b0 :: rest) with
    | none => none
    | some (cp, rest2) => (utf8DecodeLoop fuel rest2).map (fun cs => Char.ofNat cp :: cs)

/-- UTF-8 decoding of a byte list back into characters.  Models Node's
Buffer.prototype.toString on the byte sequences this development ever
decodes (well-formed UTF-8, which is all the encoder produces); on
malformed input it returns none where Node would substitute replacement
characters, which no claim here depends on. -/
def utf8DecodeBytes (l : List Nat) : Option (List Char) :=
  utf8DecodeLoop l.length l

/-- Big-endian encoding of a natural number into the given number of bytes,
modelling Buffer.writeBigUInt64BE (width 8) and BN.toArray with fixed
width.  The value is reduced modulo 2 ^ (8 * width), which is the range in
which the sources ever call it. -/
def beBytes (width : Nat) (x : Nat) : List Nat :=
  (List.range width).map (fun i => x % 2 ^ (8 * width) / 2 ^ (8 * (width - 1 - i)) % 256)

/-- The standard base64 alphabet used by Buffer.prototype.toString with the
base64 encoding. -/
def b64Alphabet : List Char :=
  "ABCDEFGHIJKLMNOPQRSTUVWXYZabcdefghijklmnopqrstuvwxyz0123456789+/".data

/-- Character of the base64 alphabet at a six-bit index. -/
def b64Char (n : Nat) : Char :=
  b64Alphabet.getD n 'A'

/-- Six-bit index of a base64 character, or none when the character is not
in the alphabet. -/
def b64Index (c : Char) : Option Nat :=
  b64Alphabet.findIdx? (fun d => d == c)

/-- Base64 encoding of a byte list as characters, with padding, exactly as
Buffer.prototype.toString produces for the base64 encoding. -/
def b64EncodeBytes : List Nat → List Char
  | [] => []
  | [b0] => [b64Char (b0 / 4), b64Char (b0 % 4 * 16), '=', '=']
  | [b0, b1] => [b64Char (b0 / 4), b64Char (b0 % 4 * 16 + b1 / 16), b64Char (b1 % 16 * 4), '=']
  | b0 :: b1 :: b2 :: rest =>
    b64Char (b0 / 4) :: b64Char (b0 % 4 * 16 + b1 / 16) :: b64Char (b1 % 16 * 4 + b2 / 64)
      :: b64Char (b2 % 64) :: b64EncodeBytes rest

/-- Base64 encoding of a byte list as a string. -/
def b64OfBytes (bs : List Nat) : String :=
  String.mk (b64EncodeBytes bs)

/-- Base64 decoding of a character list back into bytes.  Models
Buffer.from(s, base64) on the well-formed padded strings the encoder
produces; on other inputs it returns none where Node is lenient, which no
claim here depends on. -/
def b64DecodeChars : List Char → Option (List Nat)
  | [] => some []
  | c0 :: c1 :: c2 :: c3 :: rest =>
    (b64Index c0).bind (fun n0 =>
      (b64Index c1).bind (fun n1 =>
        if c2 = '=' then
          if c3 = '=' ∧ rest = [] then some [n0 * 4 + n1 / 16] else none
        else
          (b64Index c2).bind (fun n2 =>
            if c3 = '=' then
              if rest = [] then some [n0 * 4 + n1 / 16, n1 % 16 * 16 + n2 / 4] else none
            else
              (b64Index c3).bind (fun n3 =>
                (b64DecodeChars rest).map
                  (fun tl => (n0 * 4 + n1 / 16) :: (n1 % 16 * 16 + n2 / 4)
                    :: (n2 % 4 * 64 + n3) :: tl)))))
  | _ => none

/-- Envelope, from src/Envelope.ts: the message container with optional
payload, expiry, nonce and signature fields. -/
structure Envelope where
  version : Nat
  sender : String
  target : String
  session : String
  schemaDigest : String
  protocolDigest : Option String := none
  payload : Option String := none
  expires : Option Nat := none
  nonce : Option Nat := none
  signature : Option String := none
deriving DecidableEq, Repr

/-- Byte sequence fed to the SHA-256 hasher by Envelope._digest.  The code
guards payload and expires with JavaScript truthiness (so an empty payload
string and a zero expires are skipped) but guards nonce with an explicit
comparison against undefined (so a zero nonce is hashed). -/
def Envelope.digestBody (e : Envelope) : List Nat :=
  strBytes e.sender ++ strBytes e.target ++ strBytes e.session ++ strBytes e.schemaDigest
    ++ (match e.payload with
        | some p => if p = "" then [] else strBytes p
        | none => [])
    ++ (match e.expires with
        | some x => if x = 0 then [] else beBytes 8 x
        | none => [])
    ++ (match e.nonce with
        | some n => beBytes 8 n
        | none => [])

/-- Envelope.sign: store the signature produced from the digest.  The hash
function h (SHA-256 in the code) and the signing primitive sigOf
(Identity.signB64 over the digest) are passed in explicitly. -/
def Envelope.sign (h : List Nat → List Nat) (sigOf : List Nat → String) (e : Envelope) :
    Envelope :=
  { e with signature := some (sigOf (h (Envelope.digestBody e))) }

/-- Envelope.verify: raise when the signature is missing (JavaScript
truthiness, so an empty signature string also raises), otherwise delegate
to Identity.verifyDigest, passed in as vf, over the same digest used for
signing. -/
def Envelope.verify (h : List Nat → List Nat) (vf : String → List Nat → String → Bool)
    (e : Envelope) : Except String Bool :=
  match e.signature with
  | none => .error "Envelope signature is missing"
  | some s =>
    if s = "" then .error "Envelope signature is missing"
    else .ok (vf e.sender (h (Envelope.digestBody e)) s)

/-- Modelled from the claim text of C1: digest body in which each of
payload, expires and nonce is included exactly when the field is present,
with 8-byte big-endian encoding for expires and nonce.  Written from the
specification words, to be compared with Envelope.digestBody, which is
translated from the code. -/
def Envelope.digestBodyClaim (e : Envelope) : List Nat :=
  strBytes e.sender ++ strBytes e.target ++ strBytes e.session ++ strBytes e.schemaDigest
    ++ (match e.payload with
        | some p => strBytes p
        | none => [])
    ++ (match e.expires with
        | some x => beBytes 8 x
        | none => [])
    ++ (match e.nonce with
        | some n => beBytes 8 n
        | none => [])

/-- Amended description of the digest body: payload only when present and
non-empty, expires only when present and non-zero, nonce whenever present
(zero included). -/
def Envelope.digestBodyAmended (e : Envelope) : List Nat :=
  strBytes e.sender ++ strBytes e.target ++ strBytes e.session ++ strBytes e.schemaDigest
    ++ (match e.payload with
        | some p => if p ≠ "" then strBytes p else []
        | none => [])
    ++ (match e.expires with
        | some x => if x ≠ 0 then beBytes 8 x else []
        | none => [])
    ++ (match e.nonce with
        | some n => beBytes 8 n
        | none => [])

/-- Envelope.encodePayload: store the base64 of the UTF-8 bytes of the
value. -/
def Envelope.encodePayload (e : Envelope) (value : String) : Envelope :=
  { e with payload := some (b64OfBytes (strBytes value)) }

/-- Envelope.decodePayload: the empty string when the payload is absent or
empty (JavaScript truthiness), otherwise the UTF-8 decoding of the base64
decoding of the payload.  The result is an Option only to cover malformed
payloads, where the model declines to mirror Node's lenient decoders. -/
def Envelope.decodePayload (e : Envelope) : Option String :=
  match e.payload with
  | none => some ""
  | some p =>
    if p = "" then some ""
    else
      (b64DecodeChars p.data).bind (fun bytes =>
        (utf8DecodeBytes bytes).map (fun cs => String.mk cs))

/-- Concrete envelope with a present but zero expires field, used to refute
the literal reading of C1. -/
def c1Envelope : Envelope :=
  { version := 1, sender := "s", target := "t", session := "u", schemaDigest := "d",
    expires := some 0 }

/-- Envelope history entry, from src/Envelope.ts.  Timestamps are modelled
as integers (unix seconds). -/
structure EnvelopeHistoryEntry where
  timestamp : Int
  version : Nat
  sender : String
  target : String
  session : String
  schemaDigest : String
  protocolDigest : Option String := none
  payload : Option String := none
deriving DecidableEq, Repr

/-- EnvelopeHistory.applyRetentionPolicy: drop every entry whose timestamp
is below now minus 86400 seconds.  The current time now (seconds) is an
explicit argument standing for Math.floor(Date.now() / 1000). -/
def applyRetentionPolicy (now : Int) (envelopes : List EnvelopeHistoryEntry) :
    List EnvelopeHistoryEntry :=
  envelopes.filter (fun e => now - 86400 ≤ e.timestamp)

/-- EnvelopeHistory.addEntry: append the entry, then apply the retention
policy. -/
def addEntry (now : Int) (envelopes : List EnvelopeHistoryEntry)
    (entry : EnvelopeHistoryEntry) : List EnvelopeHistoryEntry :=
  applyRetentionPolicy now (envelopes ++ [entry])

/- Identifier parsing, from src/Resolver.ts and src/crypto.ts, with the
constants of src/Config.ts.  Names for the prefix constants are shortened
to Pfx. -/

/-- USER_PREFIX from src/Config.ts. -/
def userPfx : String := "user"

/-- AGENT_PREFIX (and MAINNET_PREFIX) from src/Config.ts. -/
def agentPfx : String := "agent"

/-- TESTNET_PREFIX from src/Config.ts. -/
def testnetPfx : String := "test-agent"

/-- AGENT_ADDRESS_LENGTH from src/Config.ts. -/
def agentAddressLength : Nat := 65

/-- isUserAddress from src/crypto.ts: the first four characters equal the
user prefix. -/
def isUserAddress (address : String) : Bool :=
  address.take userPfx.length == userPfx

/-- isValidAddress from src/Resolver.ts. -/
def isValidAddress (address : String) : Bool :=
  isUserAddress address ||
    (address.length == agentAddressLength && address.startsWith agentPfx)

/-- Splitting a character list on every non-overlapping leftmost occurrence
of a non-empty separator, with fuel for structural recursion so that the
definition evaluates inside the kernel.  With fuel at least the input
length this is exactly JavaScript String.prototype.split. -/
def splitSeqAux (sep : List Char) : Nat → List Char → List Char → List (List Char)
  | _, [], acc => [acc]
  | 0, l, acc => [acc ++ l]
  | fuel + 1, c :: rest, acc =>
    if sep.isPrefixOf (c :: rest) then
      acc :: splitSeqAux sep fuel (List.drop sep.length (c :: rest)) []
    else
      splitSeqAux sep fuel rest (acc ++ [c])

/-- JavaScript s.split(sep) for a non-empty separator. -/
def jsStringSplit (sep s : String) : List String :=
  (splitSeqAux sep.data s.data.length s.data []).map String.mk

/-- Occurrence of a character sequence inside another, by scanning every
suffix. -/
def containsSeq (sep : List Char) : List Char → Bool
  | [] => sep.isEmpty
  | c :: rest => sep.isPrefixOf (c :: rest) || containsSeq sep rest

/-- JavaScript s.includes(sep): sep occurs as a contiguous substring. -/
def hasSubstr (sep s : String) : Bool :=
  containsSeq sep.data s.data

/-- JavaScript s.split(sep, 2) destructured into two components: the parts
before the first and between the first and second occurrence of sep; any
text after a second occurrence is dropped. -/
def jsSplit2 (sep s : String) : String × String :=
  match jsStringSplit sep s with
  | [] => ("", "")
  | [a] => (a, "")
  | a :: b :: _ => (a, b)

/-- parseIdentifier from src/Resolver.ts. -/
def parseIdentifier (identifier : String) : String × String × String :=
  let (pfx, rest1) :=
    if hasSubstr "://" identifier then jsSplit2 "://" identifier else ("", identifier)
  let (nm, rest2) :=
    if hasSubstr "/" rest1 then jsSplit2 "/" rest1 else ("", rest1)
  if isValidAddress rest2 then (pfx, nm, rest2) else (pfx, rest2, "")

/-- Modelled from the claim text of C4: split once on the first occurrence,
keeping the whole remainder as the second component. -/
def splitOnceClaim (sep s : String) : String × String :=
  match jsStringSplit sep s with
  | [] => (s, "")
  | [a] => (a, "")
  | a :: rest => (a, String.intercalate sep rest)

/-- Modelled from the claim text of C4: parseIdentifier as the claim
describes it, with a split that keeps the entire remainder after the first
separator occurrence. -/
def parseIdentifierClaim (identifier : String) : String × String × String :=
  let (pfx, rest1) :=
    if hasSubstr "://" identifier then splitOnceClaim "://" identifier else ("", identifier)
  let (nm, rest2) :=
    if hasSubstr "/" rest1 then splitOnceClaim "/" rest1 else ("", rest1)
  if isValidAddress rest2 then (pfx, nm, rest2) else (pfx, rest2, "")

/-- Amended split description: the components before the first occurrence
and between the first and second occurrence of the separator; text after a
second occurrence is discarded, matching JavaScript split with limit 2. -/
def splitTwoAmended (sep s : String) : String × String :=
  ((jsStringSplit sep s).getD 0 "", (jsStringSplit sep s).getD 1 "")

/-- Amended description of parseIdentifier built from splitTwoAmended. -/
def parseIdentifierAmended (identifier : String) : String × String × String :=
  let (pfx, rest1) :=
    if hasSubstr "://" identifier then splitTwoAmended "://" identifier else ("", identifier)
  let (nm, rest2) :=
    if hasSubstr "/" rest1 then splitTwoAmended "/" rest1 else ("", rest1)
  if isValidAddress rest2 then (pfx, nm, rest2) else (pfx, rest2, "")

/- Identity signing, from src/crypto.ts. -/

/-- Order of the secp256k1 group, the value of ec.curve.n in the code. -/
def secpN : Nat :=
  0xFFFFFFFFFFFFFFFFFFFFFFFFFFFFFFFEBAAEDCE6AF48A03BBFD25E8CD0364141

/-- BIP-62 low-s canonicalization from Identity.getCanonicalSignature: the
half order is n shifted right by one bit, and s is replaced by n minus s
when it exceeds the half order. -/
def lowS (s : Nat) : Nat :=
  if secpN / 2 < s then secpN - s else s

/-- Identity.getCanonicalSignature: the 32-byte big-endian r followed by
the 32-byte big-endian canonical (low) s. -/
def getCanonicalSignature (r s : Nat) : List Nat :=
  beBytes 32 r ++ beBytes 32 (lowS s)

/-- Inner emission loop of convertBits from src/crypto.ts: while at least
toBits bits are pending, emit the next toBits-sized group from the
accumulator.  Fuel-based so the kernel can evaluate it; fuel at least the
pending bit count is always sufficient. -/
def convertBitsEmit (toBits maxv : Nat) : Nat → Nat → Nat → List Nat
  | 0, _, _ => []
  | fuel + 1, acc, bits =>
    if toBits ≤ bits then
      ((acc >>> (bits - toBits)) &&& maxv) :: convertBitsEmit toBits maxv fuel acc (bits - toBits)
    else []

/-- convertBits from src/crypto.ts: regroup a byte stream into groups of
toBits bits, optionally padding the final group; none models the thrown
error on an out-of-range input value or invalid padding. -/
def convertBits (data : List Nat) (fromBits toBits : Nat) (pad : Bool) : Option (List Nat) :=
  let maxv := 2 ^ toBits - 1
  let maxAcc := 2 ^ (fromBits + toBits - 1) - 1
  let step := fun (st : Option (Nat × Nat × List Nat)) (value : Nat) =>
    match st with
    | none => none
    | some (acc, bits, ret) =>
      if 2 ^ fromBits ≤ value then none
      else
        let acc1 := ((acc <<< fromBits) ||| value) &&& maxAcc
        let bits1 := bits + fromBits
        some (acc1, bits1 % toBits, ret ++ convertBitsEmit toBits maxv bits1 acc1 bits1)
  match data.foldl step (some (0, 0, [])) with
  | none => none
  | some (acc, bits, ret) =>
    if pad then
      if 0 < bits then some (ret ++ [(acc <<< (toBits - bits)) &&& maxv]) else some ret
    else if fromBits ≤ bits ∨ (acc <<< (toBits - bits)) &&& maxv ≠ 0 then none
    else some ret

/-- encodeBech32 from src/crypto.ts: regroup the value bytes into five-bit
words and hand them to the bech32 library encoder, which is passed in as
bech32Enc together with the human-readable prefix. -/
def encodeBech32 (bech32Enc : String → List Nat → String) (pfx : String)
    (value : List Nat) : Option String :=
  (convertBits value 8 5 true).map (bech32Enc pfx)

/-- Identity.sign: bech32 encoding, under the sig prefix, of the canonical
signature bytes of the raw (r, s) pair produced by the elliptic library. -/
def Identity.sign (bech32Enc : String → List Nat → String) (raw : Nat × Nat) : Option String :=
  encodeBech32 bech32Enc "sig" (getCanonicalSignature raw.1 raw.2)

/-- Identity.signB64: base64 encoding of the same canonical signature
bytes. -/
def Identity.signB64 (raw : Nat × Nat) : String :=
  b64OfBytes (getCanonicalSignature raw.1 raw.2)

/-- Identity.signDigest: identical pipeline to Identity.sign, applied to a
caller-supplied digest; the raw (r, s) pair again stands for the elliptic
library's output on that digest. -/
def Identity.signDigest (bech32Enc : String → List Nat → String) (raw : Nat × Nat) :
    Option String :=
  encodeBech32 bech32Enc "sig" (getCanonicalSignature raw.1 raw.2)

/- Registration attestations, from src/Registration.ts. -/

/-- AgentEndpoint from src/types.ts. -/
structure AgentEndpoint where
  url : String
  weight : Nat
deriving DecidableEq, Repr

/-- AgentRegistrationAttestation from src/Registration.ts.  The metadata
record is modelled as an insertion-ordered association list, so that two
objects with the same key-value pairs inserted in different orders are
different lists. -/
structure AgentRegistrationAttestation where
  agent_identifier : String
  signature : Option String := none
  timestamp : Option Nat := none
  protocols : List String
  endpoints : List AgentEndpoint
  metadata : Option (List (String × String)) := none
deriving DecidableEq, Repr

/-- Left brace as a string. -/
def jLBrace : String := "\x7b"

/-- Right brace as a string. -/
def jRBrace : String := "\x7d"

/-- JSON string escaping for quote and backslash (the only escapes the
fields of an attestation can trigger that matter for determinism). -/
def jsonEscapeChar (c : Char) : List Char :=
  if c = '"' then ['\\', '"'] else if c = '\\' then ['\\', '\\'] else [c]

/-- JSON string literal. -/
def jsonString (s : String) : String :=
  "\"" ++ String.mk ((s.data.map jsonEscapeChar).flatten) ++ "\""

/-- Comma-joined list of serialized items. -/
def jsonCommaJoin (l : List String) : String :=
  String.intercalate "," l

/-- Key order produced by JSONstringifyOrder: within one object, keys come
out lexicographically sorted, because the replacer array is the sorted
list of all keys and JSON.stringify emits each object's properties in
replacer order. -/
def sortPairs (m : List (String × String)) : List (String × String) :=
  List.insertionSort (fun p q : String × String => p.1 ≤ q.1) m

/-- Serialization of the metadata record (null when the field is null),
with keys sorted as JSONstringifyOrder produces. -/
def metadataJson : Option (List (String × String)) → String
  | none => "null"
  | some m =>
    jLBrace
      ++ jsonCommaJoin ((sortPairs m).map (fun kv => jsonString kv.1 ++ ":" ++ jsonString kv.2))
      ++ jRBrace

/-- Serialization of one endpoint object; its keys url and weight are
already in sorted order. -/
def endpointJson (e : AgentEndpoint) : String :=
  jLBrace ++ jsonString "url" ++ ":" ++ jsonString e.url ++ ","
    ++ jsonString "weight" ++ ":" ++ toString e.weight ++ jRBrace

/-- The string BaseVerifiableModel._buildDigest hashes: JSONstringifyOrder
of the attestation with signature replaced by undefined (hence omitted).
JSONstringifyOrder emits every object's keys in lexicographically sorted
order, so the fixed attestation keys appear here in the sorted order
agent_identifier, endpoints, metadata, protocols, timestamp, and the
variable-order metadata keys are sorted by sortPairs; an absent timestamp
is omitted like the undefined signature. -/
def buildDigestInput (a : AgentRegistrationAttestation) : String :=
  jLBrace
    ++ jsonString "agent_identifier" ++ ":" ++ jsonString a.agent_identifier
    ++ "," ++ jsonString "endpoints" ++ ":"
      ++ "[" ++ jsonCommaJoin (a.endpoints.map endpointJson) ++ "]"
    ++ "," ++ jsonString "metadata" ++ ":" ++ metadataJson a.metadata
    ++ "," ++ jsonString "protocols" ++ ":"
      ++ "[" ++ jsonCommaJoin (a.protocols.map jsonString) ++ "]"
    ++ (match a.timestamp with
        | some t => "," ++ jsonString "timestamp" ++ ":" ++ toString t
        | none => "")
    ++ jRBrace

/-- BaseVerifiableModel.sign: set the timestamp to the current time, then
store the signature over the digest of the serialized model.  The signing
primitive sigOf stands for identity.signDigest composed with SHA-256; for
a fixed identity it is a deterministic function of the digest input
(RFC 6979 deterministic nonces plus low-s canonicalization). -/
def AgentRegistrationAttestation.sign (sigOf : String → String) (now : Nat)
    (a : AgentRegistrationAttestation) : AgentRegistrationAttestation :=
  let a1 := { a with timestamp := some now }
  { a1 with signature := some (sigOf (buildDigestInput a1)) }

/- Resolvers, from src/Resolver.ts. -/

/-- Agent record returned by the Almanac API: an optional expiry (none for
a missing or falsy expiry string) and a url-weight endpoint list. -/
structure ApiAgentRecord where
  expiry : Option Nat
  endpoints : List (String × Nat)
deriving DecidableEq, Repr

/-- Outcome of the fetch call inside AlmanacApiResolver._apiResolve: either
the transport threw, or a response arrived with a status code and a parsed
body. -/
inductive ApiFetchOutcome where
  | thrown
  | resp (status : Nat) (agent : ApiAgentRecord)
deriving DecidableEq, Repr

/-- AlmanacApiResolver._apiResolve.  The weighted random sampler is passed
in as sample (urls, weights, k); now is the current time in the expiry
comparison.  Returns the sentinel (none, empty) on a thrown fetch (the
catch block), a non-200 status, a missing expiry, an empty endpoint list,
or a non-future expiry. -/
def apiResolve (sample : List String → List Nat → Nat → List String)
    (maxEndpoints now : Nat) (destination : String) (outcome : ApiFetchOutcome) :
    Option String × List String :=
  match outcome with
  | .thrown => (none, [])
  | .resp status agent =>
    if status ≠ 200 then (none, [])
    else
      match agent.expiry with
      | none => (none, [])
      | some expiry =>
        if 0 < agent.endpoints.length ∧ now < expiry then
          (some (parseIdentifier destination).2.2,
            sample (agent.endpoints.map Prod.fst) (agent.endpoints.map Prod.snd)
              (min maxEndpoints agent.endpoints.length))
        else (none, [])

/-- AlmanacApiResolver.resolve: use the API result when it produced an
address, otherwise fall back to the wrapped AlmanacContractResolver, passed
in as contractResolve, on the same destination. -/
def almanacApiResolverResolve (contractResolve : String → Option String × List String)
    (sample : List String → List Nat → Nat → List String)
    (maxEndpoints now : Nat) (destination : String) (outcome : ApiFetchOutcome) :
    Option String × List String :=
  match apiResolve sample maxEndpoints now destination outcome with
  | (some a, eps) => (some a, eps)
  | (none, _) => contractResolve destination

/- Registration policies, from src/Registration.ts. -/

/-- The constructor guard of DefaultRegistrationPolicy: the ledger policy
is created exactly when ledger, wallet and almanacContract are all
supplied (JavaScript truthiness on object arguments). -/
def hasLedgerPolicy {A B C : Type} (ledger : Option A) (wallet : Option B)
    (contract : Option C) : Bool :=
  ledger.isSome && wallet.isSome && contract.isSome

/-- DefaultRegistrationPolicy.register over an abstract effect state St.
Each sub-policy is a state transformer returning its effects on the world
plus an optional thrown error; both try blocks catch and log, so errors
never escape and the ledger sub-policy still runs on the state the API
sub-policy produced. -/
def defaultPolicyRegister {St : Type} (apiReg ledgerReg : St → St × Option String)
    (useLedger : Bool) (s : St) : St × Option String :=
  let r1 := apiReg s
  let s1 := r1.1
  if useLedger then
    let r2 := ledgerReg s1
    (r2.1, none)
  else (s1, none)

/-- generateBackoffTime from src/Registration.ts, in seconds as a rational:
the minimum of 2 ^ (retry + 6) and 131072, divided by 1000. -/
def generateBackoffTime (retry : Nat) : ℚ :=
  min ((2 : ℚ) ^ (retry + 6)) 131072 / 1000

/-- Outcome of one POST attempt inside almanacApiPost. -/
inductive PostAttempt where
  | ok
  | httpErr
  | thrown
deriving DecidableEq, Repr

/-- The retry loop of almanacApiPost: attempt i for i below retries; an ok
response returns true; a non-ok response logs and moves on without a
sleep; a thrown fetch returns false on the final attempt and otherwise
sleeps for generateBackoffTime of the attempt index.  Returns the result
together with the list of backoff delays slept. -/
def postLoop (outcomes : Nat → PostAttempt) (retries i : Nat) : Bool × List ℚ :=
  if _h : i < retries then
    match outcomes i with
    | .ok => (true, [])
    | .httpErr => postLoop outcomes retries (i + 1)
    | .thrown =>
      if i = retries - 1 then (false, [])
      else
        let r := postLoop outcomes retries (i + 1)
        (r.1, generateBackoffTime i :: r.2)
  else (false, [])
termination_by retries - i

/- Synchronous exchange delivery, from src/Communication.ts. -/

/-- DeliveryStatus from src/types.ts. -/
inductive DeliveryStatus where
  | delivered
  | failed
deriving DecidableEq, Repr

/-- MsgStatus from src/types.ts. -/
structure MsgStatus where
  status : DeliveryStatus
  detail : String
  destination : String
  endpoint : String
  session : String
deriving DecidableEq, Repr

/-- dispatchSyncResponseEnvelope: hand the envelope straight back to the
caller when no sinks are registered, otherwise dispatch locally and report
delivery. -/
def dispatchSyncResponseEnvelope (sinksEmpty : Bool) (env : Envelope) : Envelope ⊕ MsgStatus :=
  if sinksEmpty then Sum.inl env
  else
    Sum.inr
      { status := .delivered, detail := "Sync message successfully delivered via HTTP",
        destination := env.target, endpoint := "", session := env.session }

/-- Outcome of contacting one endpoint in synchronous mode: the fetch
threw, the response was not ok, the reply body failed envelope validation
(modelValidate threw inside the try block), or a validated reply envelope
arrived. -/
inductive SyncAttempt where
  | fetchThrown
  | httpNotOk (body : String)
  | okBadReply
  | okReply (reply : Envelope)

/-- sendExchangeEnvelope in synchronous mode, iterating over the endpoint
outcomes in order.  verifyEnv stands for reply.verify(); a reply with an
absent (or falsy empty) signature skips verification entirely and is
dispatched, a signed reply is dispatched only when verification returns
true, and a signed reply whose verification returns false or throws is
skipped so the next endpoint is tried.  When every endpoint fails, the
failed MsgStatus is returned. -/
def sendExchangeEnvelopeSync (verifyEnv : Envelope → Except String Bool) (sinksEmpty : Bool)
    (env : Envelope) : List SyncAttempt → Envelope ⊕ MsgStatus
  | [] =>
    Sum.inr
      { status := .failed, detail := "Message delivery failed",
        destination := env.target, endpoint := "", session := env.session }
  | .fetchThrown :: rest => sendExchangeEnvelopeSync verifyEnv sinksEmpty env rest
  | .httpNotOk _ :: rest => sendExchangeEnvelopeSync verifyEnv sinksEmpty env rest
  | .okBadReply :: rest => sendExchangeEnvelopeSync verifyEnv sinksEmpty env rest
  | .okReply r :: rest =>
    match r.signature with
    | none => dispatchSyncResponseEnvelope sinksEmpty r
    | some sg =>
      if sg = "" then dispatchSyncResponseEnvelope sinksEmpty r
      else
        match verifyEnv r with
        | .ok true => dispatchSyncResponseEnvelope sinksEmpty r
        | .ok false => sendExchangeEnvelopeSync verifyEnv sinksEmpty env rest
        | .error _ => sendExchangeEnvelopeSync verifyEnv sinksEmpty env rest

/-- Concrete stale history entry (86401 seconds before time 100000), for
the C6 witness. -/
def c6StaleEntry : EnvelopeHistoryEntry :=
  { timestamp := 13599, version := 1, sender := "a", target := "b", session := "c",
    schemaDigest := "d" }

/-- Concrete fresh history entry (86399 seconds before time 100000), for
the C6 witness. -/
def c6FreshEntry : EnvelopeHistoryEntry :=
  { timestamp := 13601, version := 1, sender := "a", target := "b", session := "c",
    schemaDigest := "d" }

/-- Concrete envelope without a payload, for the C7 witness. -/
def c7Envelope : Envelope :=
  { version := 1, sender := "s", target := "t", session := "u", schemaDigest := "d" }

/-- Concrete envelope carrying no signature, for the C10 witness. -/
def c10ReplyUnsigned : Envelope :=
  { version := 1, sender := "a", target := "b", session := "c", schemaDigest := "d" }

/-- Concrete envelope carrying a signature, for the C10 witness. -/
def c10ReplySigned : Envelope :=
  { version := 1, sender := "a", target := "b", session := "c", schemaDigest := "d",
    signature := some "x" }

/-- Concrete outgoing envelope, for the C10 witness. -/
def c10Outgoing : Envelope :=
  { version := 1, sender := "me", target := "you", session := "sess", schemaDigest := "sd" }

/-!
Theorems.
-/

/-- C6: EnvelopeHistory.addEntry applies the retention policy on every
insert.  An entry is stored after an insert at time now exactly when it was
in the old history or is the new entry, and its timestamp is at most 86400
seconds before now; in particular an entry with timestamp now - 86401 is
evicted by any insert and an entry with timestamp now - 86399 survives. -/
theorem envelope_history_retention (now : Int) (envelopes : List EnvelopeHistoryEntry)
    (entry x : EnvelopeHistoryEntry) :
    (x ∈ addEntry now envelopes entry ↔
      (x ∈ envelopes ∨ x = entry) ∧ now - x.timestamp ≤ 86400) ∧
    (x.timestamp = now - 86401 → x ∉ addEntry now envelopes entry) ∧
    (x.timestamp = now - 86399 → (x ∈ envelopes ∨ x = entry) →
      x ∈ addEntry now envelopes entry) := by
  have hmem : x ∈ addEntry now envelopes entry ↔
      (x ∈ envelopes ∨ x = entry) ∧ now - x.timestamp ≤ 86400 := by
    unfold addEntry applyRetentionPolicy
    rw [List.mem_filter]
    simp only [List.mem_append, List.mem_singleton, decide_eq_true_eq]
    constructor
    · rintro ⟨hin, hle⟩
      exact ⟨hin, by omega⟩
    · rintro ⟨hin, hle⟩
      exact ⟨hin, by omega⟩
  refine ⟨hmem, ?_, ?_⟩
  · intro ht hx
    have := (hmem.mp hx).2
    omega
  · intro ht hx
    exact hmem.mpr ⟨hx, by omega⟩

/-- Witness for C6 at time 100000: the entry 86401 seconds old is evicted
by its own insert, the entry 86399 seconds old survives. -/
theorem envelope_history_retention_witness :
    c6StaleEntry ∉ addEntry 100000 [] c6StaleEntry ∧
    c6FreshEntry ∈ addEntry 100000 [] c6FreshEntry := by
  constructor
  · exact (envelope_history_retention 100000 [] c6StaleEntry c6StaleEntry).2.1 (by decide)
  · exact (envelope_history_retention 100000 [] c6FreshEntry c6FreshEntry).2.2 (by decide)
      (Or.inr rfl)

/-- Chunk equality used for C1: the payload guard of the code (skip when
falsy, i.e. absent or empty) agrees with the amended description. -/
theorem payload_chunk_eq (p : Option String) :
    (match p with
      | some q => if q = "" then [] else strBytes q
      | none => ([] : List Nat)) =
    (match p with
      | some q => if q ≠ "" then strBytes q else []
      | none => ([] : List Nat)) := by
  cases p with
  | none => rfl
  | some q =>
    by_cases hq : q = "" <;> simp [hq]

/-- Chunk equality used for C1: the expires guard of the code (skip when
falsy, i.e. absent or zero) agrees with the amended description. -/
theorem expires_chunk_eq (x : Option Nat) :
    (match x with
      | some v => if v = 0 then [] else beBytes 8 v
      | none => ([] : List Nat)) =
    (match x with
      | some v => if v ≠ 0 then beBytes 8 v else []
      | none => ([] : List Nat)) := by
  cases x with
  | none => rfl
  | some v =>
    by_cases hv : v = 0 <;> simp [hv]

/-- C1 (amended): the byte sequence that Envelope._digest hashes is sender,
target, session, schemaDigest, then payload when present and non-empty,
then expires as 8-byte big-endian when present and non-zero, then nonce as
8-byte big-endian whenever present (zero included); sign stores the
signature of exactly this digest, and verify checks the signature against
exactly this digest of the same envelope (an error when the signature is
missing or empty). -/
theorem envelope_digest_corrected (h : List Nat → List Nat) (sigOf : List Nat → String)
    (vf : String → List Nat → String → Bool) (e : Envelope) :
    Envelope.digestBody e = Envelope.digestBodyAmended e ∧
    (Envelope.sign h sigOf e).signature = some (sigOf (h (Envelope.digestBody e))) ∧
    Envelope.verify h vf (Envelope.sign h sigOf e) =
      (if sigOf (h (Envelope.digestBody e)) = "" then .error "Envelope signature is missing"
       else .ok (vf e.sender (h (Envelope.digestBody e)) (sigOf (h (Envelope.digestBody e))))) := by
  have hbody : Envelope.digestBody e = Envelope.digestBodyAmended e := by
    unfold Envelope.digestBody Envelope.digestBodyAmended
    rw [payload_chunk_eq, expires_chunk_eq]
  refine ⟨hbody, rfl, ?_⟩
  unfold Envelope.verify Envelope.sign
  by_cases hs : sigOf (h (Envelope.digestBody e)) = ""
  · simp [hs]
  · simp [hs]
    rfl

/-- C1 counterexample: for an envelope whose expires field is present with
value 0, the byte sequence the code hashes omits the 8-byte encoding of
expires, while the claim as stated would include it; the two digests
therefore differ at this concrete input. -/
theorem envelope_digest_claim_counterexample :
    Envelope.digestBody c1Envelope ≠ Envelope.digestBodyClaim c1Envelope := by
  decide

/-- The source split and the amended split description agree on every
input. -/
theorem jsSplit2_eq_splitTwoAmended (sep s : String) :
    jsSplit2 sep s = splitTwoAmended sep s := by
  unfold jsSplit2 splitTwoAmended
  cases h : jsStringSplit sep s with
  | nil => simp [List.getD]
  | cons a t =>
    cases t with
    | nil => simp [List.getD]
    | cons b u => simp [List.getD]

/-- C4 (amended): parseIdentifier computes prefix, name and address as the
claim states, except that each split follows JavaScript split(sep, 2)
semantics: the remaining token is the text between the first and second
occurrence of the separator, and anything after a second occurrence is
dropped rather than kept in the remainder. -/
theorem parse_identifier_amended (identifier : String) :
    parseIdentifier identifier = parseIdentifierAmended identifier := by
  unfold parseIdentifier parseIdentifierAmended
  simp only [jsSplit2_eq_splitTwoAmended]

/-- C4 counterexample: on the identifier agent://x/y/z the code keeps only
the token between the first and second slash, yielding name y, while the
claim as stated would keep the whole remainder y/z as the candidate token
and yield name y/z. -/
theorem parse_identifier_claim_counterexample :
    parseIdentifier "agent://x/y/z" = ("agent", "y", "") ∧
    parseIdentifierClaim "agent://x/y/z" = ("agent", "y/z", "") ∧
    parseIdentifier "agent://x/y/z" ≠ parseIdentifierClaim "agent://x/y/z" := by
  refine ⟨by decide, by decide, by decide⟩

/-- C2: sign, signB64 and signDigest all serialize the signature as the
32-byte big-endian r followed by the 32-byte big-endian canonical s,
where s is replaced by n minus s exactly when it exceeds n / 2, so the
canonical s never exceeds n / 2. -/
theorem identity_signature_canonical (bech32Enc : String → List Nat → String)
    (r s : Nat) (_hs : s < secpN) :
    Identity.sign bech32Enc (r, s) =
      (convertBits (beBytes 32 r ++ beBytes 32 (lowS s)) 8 5 true).map (bech32Enc "sig") ∧
    Identity.signDigest bech32Enc (r, s) = Identity.sign bech32Enc (r, s) ∧
    Identity.signB64 (r, s) = b64OfBytes (beBytes 32 r ++ beBytes 32 (lowS s)) ∧
    (beBytes 32 r).length = 32 ∧
    (beBytes 32 (lowS s)).length = 32 ∧
    (secpN / 2 < s → lowS s = secpN - s) ∧
    (s ≤ secpN / 2 → lowS s = s) ∧
    lowS s ≤ secpN / 2 := by
  refine ⟨rfl, rfl, rfl, ?_, ?_, ?_, ?_, ?_⟩
  · simp [beBytes]
  · simp [beBytes]
  · intro h
    unfold lowS
    rw [if_pos h]
  · intro h
    unfold lowS
    rw [if_neg (by omega)]
  · unfold lowS secpN
    split <;> omega

/-- Witness for C2 at the concrete raw signature pair (2, 1). -/
theorem identity_signature_canonical_witness :
    Identity.signB64 (2, 1) = b64OfBytes (beBytes 32 2 ++ beBytes 32 (lowS 1)) ∧
    lowS 1 ≤ secpN / 2 := by
  have h := identity_signature_canonical (fun _ _ => "") 2 1 (by decide)
  exact ⟨h.2.2.1, h.2.2.2.2.2.2.2⟩

/-- C5: whenever the API path of AlmanacApiResolver yields no usable result
(thrown transport error, any non-200 status including 404, missing expiry,
non-future expiry, or empty endpoint list), resolve returns exactly the
result of the wrapped AlmanacContractResolver on the same destination; the
thrown case is caught inside _apiResolve, so no error reaches the
caller. -/
theorem almanac_api_resolver_fallback
    (contractResolve : String → Option String × List String)
    (sample : List String → List Nat → Nat → List String)
    (maxEndpoints now : Nat) (destination : String) (outcome : ApiFetchOutcome)
    (hfail : outcome = .thrown ∨
      (∃ st ag, outcome = .resp st ag ∧ st ≠ 200) ∨
      (∃ ag, outcome = .resp 200 ag ∧ ag.expiry = none) ∨
      (∃ ag x, outcome = .resp 200 ag ∧ ag.expiry = some x ∧ x ≤ now) ∨
      (∃ ag, outcome = .resp 200 ag ∧ ag.endpoints = [])) :
    almanacApiResolverResolve contractResolve sample maxEndpoints now destination outcome =
      contractResolve destination := by
  have happ : apiResolve sample maxEndpoints now destination outcome = (none, []) := by
    rcases hfail with h | ⟨st, ag, h, hst⟩ | ⟨ag, h, hx⟩ | ⟨ag, x, h, hx, hle⟩ | ⟨ag, h, hep⟩
    · subst h
      rfl
    · subst h
      simp [apiResolve, hst]
    · subst h
      simp [apiResolve, hx]
    · subst h
      simp only [apiResolve, hx, if_neg (by simp : ¬(200 ≠ 200))]
      rw [if_neg (by omega)]
    · subst h
      simp only [apiResolve, hep, if_neg (by simp : ¬(200 ≠ 200))]
      cases ag.expiry with
      | none => rfl
      | some x => simp
  unfold almanacApiResolverResolve
  rw [happ]

/-- Witness for C5 at a thrown API transport error. -/
theorem almanac_api_resolver_fallback_witness :
    almanacApiResolverResolve (fun d => (some d, ["e1"])) (fun us _ _ => us) 10 1000 "dest"
      ApiFetchOutcome.thrown = (some "dest", ["e1"]) := by
  have h := almanac_api_resolver_fallback (fun d => (some d, ["e1"])) (fun us _ _ => us)
    10 1000 "dest" ApiFetchOutcome.thrown (Or.inl rfl)
  rw [h]

/-- C8: DefaultRegistrationPolicy.register always performs the API
sub-policy's effects, performs the ledger sub-policy's effects (on the
state the API call left behind, whether or not the API call threw) exactly
when ledger, wallet and contract were all supplied at construction, and
never lets either sub-policy's error escape. -/
theorem default_registration_policy_independent {St A B C : Type}
    (apiEff : St → St) (apiErr : St → Option String)
    (ledgerEff : St → St) (ledgerErr : St → Option String)
    (ledger : Option A) (wallet : Option B) (contract : Option C) (s : St) :
    defaultPolicyRegister (fun t => (apiEff t, apiErr t)) (fun t => (ledgerEff t, ledgerErr t))
        (hasLedgerPolicy ledger wallet contract) s =
      (if ledger.isSome ∧ wallet.isSome ∧ contract.isSome then ledgerEff (apiEff s)
       else apiEff s, none) := by
  unfold defaultPolicyRegister hasLedgerPolicy
  cases ledger <;> cases wallet <;> cases contract <;> simp

/-- Sleep count bound for the almanacApiPost retry loop: at most one
backoff sleep per remaining attempt. -/
theorem postLoop_sleeps_le (outcomes : Nat → PostAttempt) (retries i : Nat) :
    ((postLoop outcomes retries i).2).length ≤ retries - i := by
  have H : ∀ n j, retries - j ≤ n → ((postLoop outcomes retries j).2).length ≤ retries - j := by
    intro n
    induction n with
    | zero =>
      intro j hj
      rw [postLoop]
      rw [dif_neg (by omega)]
      simp
    | succ n ih =>
      intro j hj
      rw [postLoop]
      by_cases hi : j < retries
      · rw [dif_pos hi]
        cases houtcome : outcomes j with
        | ok => simp
        | httpErr =>
          have := ih (j + 1) (by omega)
          simp only []
          omega
        | thrown =>
          by_cases hl : j = retries - 1
          · rw [if_pos hl]
            simp
          · rw [if_neg hl]
            have := ih (j + 1) (by omega)
            simp only [List.length_cons]
            omega
      · rw [dif_neg hi]
        simp
  exact H (retries - i) i (by omega)

/-- C9: the first backoff delay the code computes is 0.064 seconds, not the
documented 0.128 seconds; every delay is capped at 131.072 seconds, the
delays double up to the cap, and the retry loop sleeps at most once per
configured attempt, so it never retries indefinitely. -/
theorem backoff_code_bug :
    generateBackoffTime 0 = 8 / 125 ∧
    generateBackoffTime 0 ≠ 16 / 125 ∧
    (∀ retry : Nat, generateBackoffTime retry ≤ 16384 / 125) ∧
    (∀ retry : Nat, retry ≤ 10 →
      generateBackoffTime (retry + 1) = 2 * generateBackoffTime retry) ∧
    (∀ outcomes retries i, ((postLoop outcomes retries i).2).length ≤ retries - i) := by
  have hval : ∀ retry : Nat, retry ≤ 11 →
      generateBackoffTime retry = (2 : ℚ) ^ (retry + 6) / 1000 := by
    intro retry hr
    unfold generateBackoffTime
    rw [min_eq_left]
    calc (2 : ℚ) ^ (retry + 6) ≤ 2 ^ 17 := by
          apply pow_le_pow_right₀ (by norm_num)
          omega
      _ = 131072 := by norm_num
  refine ⟨?_, ?_, ?_, ?_, postLoop_sleeps_le⟩
  · rw [hval 0 (by omega)]
    norm_num
  · rw [hval 0 (by omega)]
    norm_num
  · intro retry
    have h := min_le_right ((2 : ℚ) ^ (retry + 6)) 131072
    unfold generateBackoffTime
    have : (16384 : ℚ) / 125 = 131072 / 1000 := by norm_num
    rw [this]
    linarith
  · intro retry hr
    rw [hval (retry + 1) (by omega), hval retry (by omega)]
    rw [show retry + 1 + 6 = (retry + 6) + 1 by omega, pow_succ]
    ring

/-- Witness for C9: the second backoff delay is twice the first. -/
theorem backoff_code_bug_witness :
    generateBackoffTime (0 + 1) = 2 * generateBackoffTime 0 :=
  backoff_code_bug.2.2.2.1 0 (by decide)

/-- C10: in synchronous delivery an ok response whose reply envelope has no
signature is dispatched without any verification (and handed straight back
to the caller when no sinks are registered), while a signed reply whose
verification returns false or throws is skipped and the remaining
endpoints are tried. -/
theorem sync_reply_verification (verifyEnv : Envelope → Except String Bool)
    (sinksEmpty : Bool) (env r : Envelope) (rest : List SyncAttempt) :
    (r.signature = none →
      sendExchangeEnvelopeSync verifyEnv sinksEmpty env (.okReply r :: rest) =
        dispatchSyncResponseEnvelope sinksEmpty r) ∧
    (sinksEmpty = true → dispatchSyncResponseEnvelope sinksEmpty r = Sum.inl r) ∧
    (∀ sg, r.signature = some sg → sg ≠ "" →
      (verifyEnv r = .ok false ∨ ∃ msg, verifyEnv r = .error msg) →
      sendExchangeEnvelopeSync verifyEnv sinksEmpty env (.okReply r :: rest) =
        sendExchangeEnvelopeSync verifyEnv sinksEmpty env rest) := by
  refine ⟨?_, ?_, ?_⟩
  · intro hs
    simp only [sendExchangeEnvelopeSync, hs]
  · intro h
    subst h
    simp [dispatchSyncResponseEnvelope]
  · intro sg hsg hne hv
    simp only [sendExchangeEnvelopeSync, hsg]
    rw [if_neg hne]
    rcases hv with hv | ⟨msg, hv⟩ <;> rw [hv]

/-- Witness for C10: an unsigned reply comes straight back to the caller,
and a signed reply failing verification falls through to the remaining
(empty) endpoint list. -/
theorem sync_reply_verification_witness :
    sendExchangeEnvelopeSync (fun _ => .ok false) true c10Outgoing
        [SyncAttempt.okReply c10ReplyUnsigned] = Sum.inl c10ReplyUnsigned ∧
    sendExchangeEnvelopeSync (fun _ => .ok false) true c10Outgoing
        [SyncAttempt.okReply c10ReplySigned] =
      sendExchangeEnvelopeSync (fun _ => .ok false) true c10Outgoing [] := by
  constructor
  · have h := sync_reply_verification (fun _ => .ok false) true c10Outgoing c10ReplyUnsigned []
    rw [h.1 rfl, h.2.1 rfl]
  · have h := sync_reply_verification (fun _ => .ok false) true c10Outgoing c10ReplySigned []
    exact h.2.2 "x" rfl (by decide) (Or.inl rfl)

/-- Key-sorted serialization order is a function of the key-value multiset:
two association lists that are permutations of each other with duplicate-
free keys sort to the same list. -/
theorem sortPairs_eq_of_perm (m1 m2 : List (String × String)) (hperm : m1.Perm m2)
    (hnodup : (m1.map Prod.fst).Nodup) : sortPairs m1 = sortPairs m2 := by
  haveI htot : IsTotal (String × String) (fun p q => p.1 ≤ q.1) :=
    ⟨fun a b => le_total a.1 b.1⟩
  haveI htrans : IsTrans (String × String) (fun p q => p.1 ≤ q.1) :=
    ⟨fun _ _ _ hab hbc => le_trans hab hbc⟩
  haveI hanti : IsAntisymm (String × String) (fun p q => p.1 < q.1) :=
    ⟨fun _ _ h1 h2 => absurd h2 (lt_asymm h1)⟩
  have hp : (sortPairs m1).Perm (sortPairs m2) :=
    ((List.perm_insertionSort _ m1).trans hperm).trans (List.perm_insertionSort _ m2).symm
  have hnodup2 : (m2.map Prod.fst).Nodup := ((hperm.map Prod.fst).nodup_iff).mp hnodup
  have hstrict : ∀ l : List (String × String),
      l.Sorted (fun p q => p.1 ≤ q.1) → (l.map Prod.fst).Nodup →
      l.Sorted (fun p q => p.1 < q.1) := by
    intro l hsor hnd
    have hne : l.Pairwise (fun a b => a.1 ≠ b.1) := List.pairwise_map.mp hnd
    exact (hsor.and hne).imp (fun h => lt_of_le_of_ne h.1 h.2)
  have hn1 : ((sortPairs m1).map Prod.fst).Nodup :=
    (((List.perm_insertionSort _ m1).map Prod.fst).nodup_iff).mpr hnodup
  have hn2 : ((sortPairs m2).map Prod.fst).Nodup :=
    (((List.perm_insertionSort _ m2).map Prod.fst).nodup_iff).mpr hnodup2
  exact List.eq_of_perm_of_sorted hp
    (hstrict _ (List.sorted_insertionSort _ m1) hn1)
    (hstrict _ (List.sorted_insertionSort _ m2) hn2)

/-- C3: two attestations whose fields hold the same values, but whose
metadata objects were built with keys inserted in different orders,
serialize to the same digest input (which also omits the signature field),
so signing both with the same identity stores identical signatures. -/
theorem attestation_digest_deterministic (sigOf : String → String) (now : Nat)
    (aid : String) (prots : List String) (eps : List AgentEndpoint)
    (s1 s2 : Option String) (t1 t2 : Option Nat)
    (m1 m2 : List (String × String)) (hperm : m1.Perm m2)
    (hnodup : (m1.map Prod.fst).Nodup) :
    buildDigestInput { agent_identifier := aid, signature := s1, timestamp := t1,
                       protocols := prots, endpoints := eps, metadata := some m1 } =
      buildDigestInput { agent_identifier := aid, signature := s2, timestamp := t1,
                         protocols := prots, endpoints := eps, metadata := some m2 } ∧
    (AgentRegistrationAttestation.sign sigOf now
        { agent_identifier := aid, signature := s1, timestamp := t1,
          protocols := prots, endpoints := eps, metadata := some m1 }).signature =
      (AgentRegistrationAttestation.sign sigOf now
        { agent_identifier := aid, signature := s2, timestamp := t2,
          protocols := prots, endpoints := eps, metadata := some m2 }).signature := by
  have hmeta : metadataJson (some m1) = metadataJson (some m2) := by
    simp only [metadataJson]
    rw [sortPairs_eq_of_perm m1 m2 hperm hnodup]
  have hbd : ∀ (u1 u2 : Option String) (t : Option Nat),
      buildDigestInput { agent_identifier := aid, signature := u1, timestamp := t,
                         protocols := prots, endpoints := eps, metadata := some m1 } =
        buildDigestInput { agent_identifier := aid, signature := u2, timestamp := t,
                           protocols := prots, endpoints := eps, metadata := some m2 } := by
    intro u1 u2 t
    unfold buildDigestInput
    rw [hmeta]
  refine ⟨hbd s1 s2 t1, ?_⟩
  simp only [AgentRegistrationAttestation.sign]
  exact congrArg (fun d => some (sigOf d)) (hbd s1 s2 (some now))

/-- Witness for C3 at a concrete pair of two-key metadata objects inserted
in opposite orders, with different stored signature fields as well. -/
theorem attestation_digest_deterministic_witness :
    buildDigestInput { agent_identifier := "agent1q", signature := none, timestamp := some 5,
                       protocols := ["p"], endpoints := [{ url := "u", weight := 1 }],
                       metadata := some [("a", "1"), ("b", "2")] } =
      buildDigestInput { agent_identifier := "agent1q", signature := some "sig",
                         timestamp := some 5, protocols := ["p"],
                         endpoints := [{ url := "u", weight := 1 }],
                         metadata := some [("b", "2"), ("a", "1")] } := by
  have h := attestation_digest_deterministic id 5 "agent1q" ["p"] [{ url := "u", weight := 1 }]
    none (some "sig") (some 5) (some 5)
    [("a", "1"), ("b", "2")] [("b", "2"), ("a", "1")] (by decide) (by decide)
  exact h.1

/-- Validity bounds of a character's code point as a natural number. -/
theorem char_toNat_valid (c : Char) :
    c.toNat < 0xD800 ∨ (0xDFFF < c.toNat ∧ c.toNat < 0x110000) := by
  rcases c.valid with h | ⟨h1, h2⟩
  · exact Or.inl h
  · exact Or.inr ⟨h1, h2⟩

/-- Every byte the UTF-8 encoder emits is below 256. -/
theorem utf8EncodeChar_lt_256 (c : Char) : ∀ b ∈ utf8EncodeChar c, b < 256 := by
  intro b hb
  have hv2 : c.toNat < 0x110000 := by
    rcases char_toNat_valid c with h | ⟨_, h2⟩ <;> omega
  simp only [utf8EncodeChar] at hb
  split_ifs at hb with h1 h2 h3
  · simp only [List.mem_singleton] at hb
    omega
  · simp only [List.mem_cons, List.not_mem_nil, or_false] at hb
    rcases hb with rfl | rfl <;> omega
  · simp only [List.mem_cons, List.not_mem_nil, or_false] at hb
    rcases hb with rfl | rfl | rfl <;> omega
  · simp only [List.mem_cons, List.not_mem_nil, or_false] at hb
    rcases hb with rfl | rfl | rfl | rfl <;> omega

/-- Every byte of the UTF-8 bytes of a string is below 256. -/
theorem strBytes_lt_256 (s : String) : ∀ b ∈ strBytes s, b < 256 := by
  intro b hb
  unfold strBytes at hb
  simp only [List.mem_flatten, List.mem_map] at hb
  rcases hb with ⟨l, ⟨c, _, rfl⟩, hbl⟩
  exact utf8EncodeChar_lt_256 c b hbl

/-- The UTF-8 encoder never produces the empty byte list. -/
theorem utf8EncodeChar_ne_nil (c : Char) : utf8EncodeChar c ≠ [] := by
  simp only [utf8EncodeChar]
  split_ifs <;> simp

/-- Decoding the first sequence of an encoded character recovers exactly
that character's code point and the untouched remainder. -/
theorem utf8DecodeOne_encode (c : Char) (rest : List Nat) :
    utf8DecodeOne (utf8EncodeChar c ++ rest) = some (c.toNat, rest) := by
  have hv := char_toNat_valid c
  have hv2 : c.toNat < 0x110000 := by rcases hv with h | ⟨_, h2⟩ <;> omega
  by_cases h1 : c.toNat < 0x80
  · have he : utf8EncodeChar c = [c.toNat] := by
      simp only [utf8EncodeChar]
      rw [if_pos h1]
    rw [he, List.singleton_append, utf8DecodeOne, if_pos h1]
  · by_cases h2 : c.toNat < 0x800
    · have he : utf8EncodeChar c = [0xC0 + c.toNat / 64, 0x80 + c.toNat % 64] := by
        simp only [utf8EncodeChar]
        rw [if_neg h1, if_pos h2]
      rw [he, List.cons_append, List.cons_append, List.nil_append, utf8DecodeOne,
        if_neg (by omega), if_neg (by omega), if_pos (by omega), utf8Decode2,
        if_pos (by omega), if_neg (by omega)]
      have hcp : (0xC0 + c.toNat / 64 - 0xC0) * 64 + (0x80 + c.toNat % 64 - 0x80) = c.toNat := by
        omega
      rw [hcp]
    · by_cases h3 : c.toNat < 0x10000
      · have he : utf8EncodeChar c =
            [0xE0 + c.toNat / 4096, 0x80 + c.toNat / 64 % 64, 0x80 + c.toNat % 64] := by
          simp only [utf8EncodeChar]
          rw [if_neg h1, if_neg h2, if_pos h3]
        have hcp : (0xE0 + c.toNat / 4096 - 0xE0) * 4096 + (0x80 + c.toNat / 64 % 64 - 0x80) * 64
            + (0x80 + c.toNat % 64 - 0x80) = c.toNat := by omega
        rw [he, List.cons_append, List.cons_append, List.cons_append, List.nil_append,
          utf8DecodeOne, if_neg (by omega), if_neg (by omega), if_neg (by omega),
          if_pos (by omega), utf8Decode3, if_pos (by omega), hcp,
          if_neg (by rcases hv with h | ⟨ha, hb⟩ <;> omega)]
      · have he : utf8EncodeChar c =
            [0xF0 + c.toNat / 262144, 0x80 + c.toNat / 4096 % 64, 0x80 + c.toNat / 64 % 64,
              0x80 + c.toNat % 64] := by
          simp only [utf8EncodeChar]
          rw [if_neg h1, if_neg h2, if_neg h3]
        have hcp : (0xF0 + c.toNat / 262144 - 0xF0) * 262144
            + (0x80 + c.toNat / 4096 % 64 - 0x80) * 4096
            + (0x80 + c.toNat / 64 % 64 - 0x80) * 64 + (0x80 + c.toNat % 64 - 0x80)
            = c.toNat := by omega
        rw [he, List.cons_append, List.cons_append, List.cons_append, List.cons_append,
          List.nil_append, utf8DecodeOne, if_neg (by omega), if_neg (by omega),
          if_neg (by omega), if_neg (by omega), if_pos (by omega), utf8Decode4,
          if_pos (by omega), hcp, if_neg (by omega)]

/-- A decoded one-continuation sequence consumes at least one byte. -/
theorem utf8Decode2_shorter (b0 : Nat) (l : List Nat) (cp : Nat) (r2 : List Nat)
    (h : utf8Decode2 b0 l = some (cp, r2)) : r2.length < l.length := by
  rcases l with _ | ⟨b1, r⟩
  · simp [utf8Decode2] at h
  · simp only [utf8Decode2] at h
    split_ifs at h
    cases h
    simp

/-- A decoded two-continuation sequence consumes at least one byte. -/
theorem utf8Decode3_shorter (b0 : Nat) (l : List Nat) (cp : Nat) (r2 : List Nat)
    (h : utf8Decode3 b0 l = some (cp, r2)) : r2.length < l.length := by
  rcases l with _ | ⟨b1, _ | ⟨b2, r⟩⟩
  · simp [utf8Decode3] at h
  · simp [utf8Decode3] at h
  · simp only [utf8Decode3] at h
    split_ifs at h
    cases h
    simp
    omega

/-- A decoded three-continuation sequence consumes at least one byte. -/
theorem utf8Decode4_shorter (b0 : Nat) (l : List Nat) (cp : Nat) (r2 : List Nat)
    (h : utf8Decode4 b0 l = some (cp, r2)) : r2.length < l.length := by
  rcases l with _ | ⟨b1, _ | ⟨b2, _ | ⟨b3, r⟩⟩⟩
  · simp [utf8Decode4] at h
  · simp [utf8Decode4] at h
  · simp [utf8Decode4] at h
  · simp only [utf8Decode4] at h
    split_ifs at h
    cases h
    simp
    omega

/-- Decoding one sequence strictly shortens the stream. -/
theorem utf8DecodeOne_shorter :
    ∀ l cp rest2, utf8DecodeOne l = some (cp, rest2) → rest2.length < l.length := by
  intro l cp rest2 h
  rcases l with _ | ⟨b0, rest⟩
  · simp [utf8DecodeOne] at h
  · simp only [utf8DecodeOne] at h
    split_ifs at h with h1 h2 h3 h4 h5
    · cases h
      simp
    · have := utf8Decode2_shorter b0 rest cp rest2 h
      simp only [List.length_cons]
      omega
    · have := utf8Decode3_shorter b0 rest cp rest2 h
      simp only [List.length_cons]
      omega
    · have := utf8Decode4_shorter b0 rest cp rest2 h
      simp only [List.length_cons]
      omega

/-- The decode loop is independent of the fuel once the fuel covers the
stream length. -/
theorem utf8DecodeLoop_congr :
    ∀ (n : Nat) (l : List Nat) (fuel fuel2 : Nat), l.length ≤ n → l.length ≤ fuel →
      l.length ≤ fuel2 → utf8DecodeLoop fuel l = utf8DecodeLoop fuel2 l := by
  intro n
  induction n with
  | zero =>
    intro l fuel fuel2 hn _ _
    have hl : l = [] := List.eq_nil_of_length_eq_zero (by omega)
    subst hl
    cases fuel <;> cases fuel2 <;> rfl
  | succ n ih =>
    intro l fuel fuel2 hn h1 h2
    match l with
    | [] => cases fuel <;> cases fuel2 <;> rfl
    | b0 :: rest =>
      have hf : fuel ≠ 0 := by simp at h1; omega
      have hf2 : fuel2 ≠ 0 := by simp at h2; omega
      obtain ⟨f, rfl⟩ := Nat.exists_eq_succ_of_ne_zero hf
      obtain ⟨f2, rfl⟩ := Nat.exists_eq_succ_of_ne_zero hf2
      rw [utf8DecodeLoop, utf8DecodeLoop]
      cases hone : utf8DecodeOne (b0 :: rest) with
      | none => rfl
      | some pr =>
        obtain ⟨cp, rest2⟩ := pr
        have hlt := utf8DecodeOne_shorter _ _ _ hone
        simp only [List.length_cons] at hlt hn h1 h2
        show (utf8DecodeLoop f rest2).map (fun cs => Char.ofNat cp :: cs) =
          (utf8DecodeLoop f2 rest2).map (fun cs => Char.ofNat cp :: cs)
        rw [ih rest2 f f2 (by omega) (by omega) (by omega)]

/-- Decoding after encoding restores a character at the head of the
stream. -/
theorem utf8_decode_encode_char (c : Char) (rest : List Nat) :
    utf8DecodeBytes (utf8EncodeChar c ++ rest) =
      (utf8DecodeBytes rest).map (fun cs => c :: cs) := by
  have hofn : Char.ofNat c.toNat = c := Char.ofNat_toNat c
  obtain ⟨b0, t, ht⟩ : ∃ b0 t, utf8EncodeChar c ++ rest = b0 :: t := by
    cases hE : utf8EncodeChar c with
    | nil => exact absurd hE (utf8EncodeChar_ne_nil c)
    | cons x xs => exact ⟨x, xs ++ rest, by simp⟩
  have hlen : rest.length ≤ t.length := by
    have h1 := congrArg List.length ht
    have h3 : 1 ≤ (utf8EncodeChar c).length := by
      cases hE : utf8EncodeChar c with
      | nil => exact absurd hE (utf8EncodeChar_ne_nil c)
      | cons x xs => simp
    simp only [List.length_append, List.length_cons] at h1
    omega
  unfold utf8DecodeBytes
  rw [ht, List.length_cons, utf8DecodeLoop, ← ht, utf8DecodeOne_encode]
  show (utf8DecodeLoop t.length rest).map (fun cs => Char.ofNat c.toNat :: cs) = _
  rw [utf8DecodeLoop_congr t.length rest t.length rest.length hlen hlen (le_refl _), hofn]

/-- Decoding the UTF-8 encoding of a character list restores the list. -/
theorem utf8_decode_encode_list :
    ∀ cs : List Char, utf8DecodeBytes ((cs.map utf8EncodeChar).flatten) = some cs := by
  intro cs
  induction cs with
  | nil => rfl
  | cons c cs ih =>
    simp only [List.map_cons, List.flatten_cons]
    rw [utf8_decode_encode_char, ih]
    rfl

/-- Each six-bit value maps into the base64 alphabet and back. -/
theorem b64Index_b64Char : ∀ n, n < 64 → b64Index (b64Char n) = some n := by
  decide

/-- No alphabet character is the padding character. -/
theorem b64Char_ne_pad : ∀ n, n < 64 → b64Char n ≠ '=' := by
  decide

/-- Base64 decoding inverts base64 encoding on byte lists. -/
theorem b64_decode_encode : ∀ bs : List Nat, (∀ b ∈ bs, b < 256) →
    b64DecodeChars (b64EncodeBytes bs) = some bs
  | [], _ => rfl
  | [b0], h => by
    have hb0 : b0 < 256 := h b0 (by simp)
    have e0 := b64Index_b64Char (b0 / 4) (by omega)
    have e1 := b64Index_b64Char (b0 % 4 * 16) (by omega)
    simp only [b64EncodeBytes, b64DecodeChars, e0, e1, Option.some_bind, if_pos rfl,
      and_self, if_true]
    simp only [Option.some.injEq, List.cons.injEq, and_true]
    omega
  | [b0, b1], h => by
    have hb0 : b0 < 256 := h b0 (by simp)
    have hb1 : b1 < 256 := h b1 (by simp)
    have e0 := b64Index_b64Char (b0 / 4) (by omega)
    have e1 := b64Index_b64Char (b0 % 4 * 16 + b1 / 16) (by omega)
    have e2 := b64Index_b64Char (b1 % 16 * 4) (by omega)
    have hne2 := b64Char_ne_pad (b1 % 16 * 4) (by omega)
    simp only [b64EncodeBytes, b64DecodeChars, e0, e1, e2, Option.some_bind, if_neg hne2,
      if_pos rfl, if_true]
    simp only [Option.some.injEq, List.cons.injEq, and_true]
    refine ⟨by omega, by omega⟩
  | b0 :: b1 :: b2 :: b3rest, h => by
    have hb0 : b0 < 256 := h b0 (by simp)
    have hb1 : b1 < 256 := h b1 (by simp)
    have hb2 : b2 < 256 := h b2 (by simp)
    have e0 := b64Index_b64Char (b0 / 4) (by omega)
    have e1 := b64Index_b64Char (b0 % 4 * 16 + b1 / 16) (by omega)
    have e2 := b64Index_b64Char (b1 % 16 * 4 + b2 / 64) (by omega)
    have e3 := b64Index_b64Char (b2 % 64) (by omega)
    have hne2 := b64Char_ne_pad (b1 % 16 * 4 + b2 / 64) (by omega)
    have hne3 := b64Char_ne_pad (b2 % 64) (by omega)
    have ih := b64_decode_encode b3rest (fun b hb => h b (by simp [hb]))
    simp only [b64EncodeBytes, b64DecodeChars, e0, e1, e2, e3, Option.some_bind, if_neg hne2,
      if_neg hne3, ih, Option.map_some']
    simp only [Option.some.injEq, List.cons.injEq, and_true]
    refine ⟨by omega, by omega, by omega⟩

/-- The base64 encoder never maps a nonempty byte list to the empty
character list. -/
theorem b64EncodeBytes_ne_nil (b0 : Nat) (l : List Nat) : b64EncodeBytes (b0 :: l) ≠ [] := by
  match l with
  | [] => simp [b64EncodeBytes]
  | [b1] => simp [b64EncodeBytes]
  | b1 :: b2 :: rest => simp [b64EncodeBytes]

/-- C7: decoding after encoding returns the original payload string for
every string, including the empty string (which round-trips through the
absent-or-empty sentinel branch), and an envelope without a payload decodes
to the empty string, never to a missing value. -/
theorem envelope_payload_roundtrip :
    (∀ (e : Envelope) (s : String),
      Envelope.decodePayload (Envelope.encodePayload e s) = some s) ∧
    (∀ e : Envelope, e.payload = none → Envelope.decodePayload e = some "") := by
  constructor
  · intro e s
    by_cases hs : s = ""
    · subst hs
      rfl
    · have hdata : s.data ≠ [] := by
        intro hd
        exact hs (String.ext (hd.trans rfl))
      have hsb : strBytes s ≠ [] := by
        unfold strBytes
        cases hd : s.data with
        | nil => exact absurd hd hdata
        | cons c cs =>
          simp only [List.map_cons, List.flatten_cons]
          intro hh
          exact utf8EncodeChar_ne_nil c (List.append_eq_nil.mp hh).1
      have hb64 : b64OfBytes (strBytes s) ≠ "" := by
        cases hsb2 : strBytes s with
        | nil => exact absurd hsb2 hsb
        | cons b0 l =>
          unfold b64OfBytes
          intro hh
          apply b64EncodeBytes_ne_nil b0 l
          have hdd : (String.mk (b64EncodeBytes (b0 :: l))).data = ("" : String).data := by
            rw [hh]
          simpa using hdd
      simp only [Envelope.encodePayload, Envelope.decodePayload]
      rw [if_neg hb64]
      have hdchars : (b64OfBytes (strBytes s)).data = b64EncodeBytes (strBytes s) := rfl
      rw [hdchars, b64_decode_encode (strBytes s) (strBytes_lt_256 s), Option.some_bind]
      have hdec : utf8DecodeBytes (strBytes s) = some s.data := utf8_decode_encode_list s.data
      rw [hdec, Option.map_some']
  · intro e hp
    unfold Envelope.decodePayload
    rw [hp]

/-- Witness for C7 at the empty and a concrete non-empty payload. -/
theorem envelope_payload_roundtrip_witness :
    Envelope.decodePayload c7Envelope = some "" ∧
    Envelope.decodePayload (Envelope.encodePayload c7Envelope "hi") = some "hi" :=
  ⟨envelope_payload_roundtrip.2 c7Envelope rfl,
    envelope_payload_roundtrip.1 c7Envelope "hi"⟩

end UAgents
